import Mathlib

/-!
Verification of the minter-go-node account-state core: the multi-asset
balance ledger (`core/state/state_object.go`), the state object with its
one-shot dirty callback and `deepCopy`, the signed-check recovery layer
(`check` package) and the delegation transaction (`transaction` package).

Go maps are embedded as association lists, `*big.Int` as `Int` (with
`Option Int` where a nil pointer is significant), byte strings as
`List Nat`. External collaborators that the sources only consume (the RLP
byte codec, the keccak hash, the secp256k1 primitives, the bonding-curve
formula and the state-manager interface) are modelled abstractly, as
parameters or from their interface description in the specification.
-/

set_option maxHeartbeats 1000000

namespace Minter

/-- The bytes of Go's fixed-width `types.CoinSymbol` array. -/
abbrev CoinSymbol := List Nat

/-- Big-endian unsigned-integer value of a byte string: models
`big.NewInt(0).SetBytes(b)`. -/
def beVal (b : CoinSymbol) : Nat := b.foldl (fun acc d => acc * 256 + d) 0

namespace State

/-- First-match association-list lookup: models reading `m[c]` of a Go map
whose insertion discipline keeps keys unique. -/
def lookupCoin (l : List (CoinSymbol × Int)) (c : CoinSymbol) : Option Int :=
  match l with
  | [] => none
  | (k, v) :: t => if k = c then some v else lookupCoin t c

/-- Association-list write: models the Go map assignment `m[c] = a`
(overwrite if present, insert otherwise). -/
def insertCoin (l : List (CoinSymbol × Int)) (c : CoinSymbol) (a : Int) :
    List (CoinSymbol × Int) :=
  match l with
  | [] => [(c, a)]
  | (k, v) :: t => if k = c then (k, a) :: t else (k, v) :: insertCoin t c a

/-- `Balances`: the per-account coin-to-amount map
(`Data map[types.CoinSymbol]*big.Int`). -/
structure Balances where
  data : List (CoinSymbol × Int)
deriving DecidableEq

/-- The descending-value ordering used by `getCoins`' `sort.Slice` call:
`a` may precede `b` when `b`'s numeric value does not exceed `a`'s. -/
def symbolGE (a b : CoinSymbol) : Prop := beVal b ≤ beVal a

instance : DecidableRel symbolGE := fun a b => Nat.decLe (beVal b) (beVal a)

instance : IsTotal CoinSymbol symbolGE :=
  ⟨fun a b => Nat.le_total (beVal b) (beVal a)⟩

instance : IsTrans CoinSymbol symbolGE :=
  ⟨fun _ _ _ h1 h2 => Nat.le_trans h2 h1⟩

/-- `Balances.getCoins`: the keys whose amount is strictly positive, sorted
descending by the symbol's big-endian numeric value.  Go's `sort.Slice`
with comparator `val(keys[a]).Cmp(val(keys[b])) == 1` is modelled by a
sort with respect to `symbolGE`, which any comparison sort under that
comparator produces. -/
def Balances.getCoins (b : Balances) : List CoinSymbol :=
  List.insertionSort symbolGE
    ((b.data.filter (fun p => decide (0 < p.2))).map Prod.fst)

/-- One serialized entry: `Balance{Coin, Amount}`. -/
structure Balance where
  coin : CoinSymbol
  amount : Int
deriving DecidableEq

/-- `Balances.EncodeRLP`: the ordered sequence of `Balance` pairs handed to
`rlp.Encode` — for each key of `getCoins`, in order, the pair of the key
and `b.Data[k]`.  The byte-level RLP encoder is external to the sources,
so the canonical encoding is modelled at the level of this pair sequence,
which the encoder serializes injectively. -/
def Balances.encodeRLP (b : Balances) : List Balance :=
  b.getCoins.map (fun k => ⟨k, (lookupCoin b.data k).getD 0⟩)

/-- `Balances.DecodeRLP`: writes each decoded pair into the map in order
(last write wins), starting from the receiver's map (allocated empty when
nil). -/
def Balances.decodeRLP (b : Balances) (pairs : List Balance) : Balances :=
  ⟨pairs.foldl (fun m p => insertCoin m p.coin p.amount) b.data⟩

theorem lookupCoin_insertCoin_self (l : List (CoinSymbol × Int))
    (c : CoinSymbol) (a : Int) : lookupCoin (insertCoin l c a) c = some a := by
  induction l with
  | nil => simp [insertCoin, lookupCoin]
  | cons p t ih =>
    obtain ⟨k, v⟩ := p
    by_cases h : k = c
    · simp [insertCoin, lookupCoin, h]
    · simp [insertCoin, lookupCoin, h, ih]

theorem lookupCoin_insertCoin_ne (l : List (CoinSymbol × Int))
    (c c' : CoinSymbol) (a : Int) (h : c' ≠ c) :
    lookupCoin (insertCoin l c a) c' = lookupCoin l c' := by
  have hcc : c ≠ c' := fun h2 => h h2.symm
  induction l with
  | nil => simp [insertCoin, lookupCoin, hcc]
  | cons p t ih =>
    obtain ⟨k, v⟩ := p
    by_cases hk : k = c
    · subst hk
      simp [insertCoin, lookupCoin, hcc]
    · simp only [insertCoin, if_neg hk, lookupCoin]
      by_cases hk' : k = c'
      · simp [hk']
      · simp [hk', ih]

theorem lookupCoin_eq_some_mem {l : List (CoinSymbol × Int)}
    {c : CoinSymbol} {a : Int} (h : lookupCoin l c = some a) : (c, a) ∈ l := by
  induction l with
  | nil => simp [lookupCoin] at h
  | cons p t ih =>
    obtain ⟨k, v⟩ := p
    by_cases hk : k = c
    · simp [lookupCoin, hk] at h
      simp [hk, h]
    · simp [lookupCoin, hk] at h
      exact List.mem_cons_of_mem _ (ih h)

theorem mem_lookupCoin {l : List (CoinSymbol × Int)} {c : CoinSymbol} {a : Int}
    (hnd : (l.map Prod.fst).Nodup) (h : (c, a) ∈ l) : lookupCoin l c = some a := by
  induction l with
  | nil => simp at h
  | cons p t ih =>
    obtain ⟨k, v⟩ := p
    simp only [List.map_cons, List.nodup_cons] at hnd
    rcases List.mem_cons.mp h with h1 | h1
    · rw [Prod.mk.injEq] at h1
      obtain ⟨rfl, rfl⟩ := h1
      simp [lookupCoin]
    · have hk : k ≠ c := by
        rintro rfl
        exact hnd.1 (List.mem_map.mpr ⟨(k, a), h1, rfl⟩)
      simp [lookupCoin, hk, ih hnd.2 h1]

/-- First entry of a decoded pair sequence carrying coin `c`, if any. -/
def lookupPairs (pairs : List Balance) (c : CoinSymbol) : Option Int :=
  match pairs with
  | [] => none
  | p :: t => if p.coin = c then some p.amount else lookupPairs t c

theorem lookup_foldl_not_mem (pairs : List Balance)
    (m : List (CoinSymbol × Int)) (c : CoinSymbol)
    (h : c ∉ pairs.map Balance.coin) :
    lookupCoin (pairs.foldl (fun m p => insertCoin m p.coin p.amount) m) c =
      lookupCoin m c := by
  induction pairs generalizing m with
  | nil => rfl
  | cons p t ih =>
    simp only [List.map_cons, List.mem_cons, not_or] at h
    rw [List.foldl_cons, ih _ h.2, lookupCoin_insertCoin_ne _ _ _ _ h.1]

theorem lookup_decode (pairs : List Balance) (m : List (CoinSymbol × Int))
    (c : CoinSymbol) (hnd : (pairs.map Balance.coin).Nodup) :
    lookupCoin ((Balances.decodeRLP ⟨m⟩ pairs).data) c =
      match lookupPairs pairs c with
      | some a => some a
      | none => lookupCoin m c := by
  induction pairs generalizing m with
  | nil => rfl
  | cons p t ih =>
    simp only [List.map_cons, List.nodup_cons] at hnd
    simp only [Balances.decodeRLP, List.foldl_cons] at *
    by_cases hc : p.coin = c
    · have hmem : c ∉ t.map Balance.coin := hc ▸ hnd.1
      rw [lookup_foldl_not_mem t _ c hmem]
      simp [lookupPairs, hc, hc ▸ lookupCoin_insertCoin_self m p.coin p.amount]
    · rw [ih _ hnd.2]
      simp only [lookupPairs, if_neg hc]
      cases lookupPairs t c with
      | some a => rfl
      | none => exact lookupCoin_insertCoin_ne _ _ _ _ (fun h2 => hc h2.symm)

theorem mem_getCoins (b : Balances) (c : CoinSymbol) :
    c ∈ b.getCoins ↔ ∃ a, (c, a) ∈ b.data ∧ 0 < a := by
  simp only [Balances.getCoins, List.mem_insertionSort, List.mem_map,
    List.mem_filter, decide_eq_true_eq]
  constructor
  · rintro ⟨⟨k, v⟩, ⟨hm, hv⟩, rfl⟩
    exact ⟨v, hm, hv⟩
  · rintro ⟨a, hm, ha⟩
    exact ⟨(c, a), ⟨hm, ha⟩, rfl⟩

theorem getCoins_nodup (b : Balances) (hnd : (b.data.map Prod.fst).Nodup) :
    b.getCoins.Nodup := by
  have h1 : ((b.data.filter (fun p => decide (0 < p.2))).map Prod.fst).Nodup :=
    hnd.sublist ((List.filter_sublist b.data).map Prod.fst)
  exact (List.perm_insertionSort symbolGE _).nodup_iff.mpr h1

theorem lookupPairs_map (keys : List CoinSymbol) (g : CoinSymbol → Int)
    (c : CoinSymbol) :
    lookupPairs (keys.map (fun k => ⟨k, g k⟩)) c =
      if c ∈ keys then some (g c) else none := by
  induction keys with
  | nil => rfl
  | cons k t ih =>
    by_cases hk : k = c
    · subst hk
      simp [lookupPairs]
    · simp only [List.map_cons, lookupPairs, if_neg hk, ih, List.mem_cons]
      have : ¬c = k := fun h2 => hk h2.symm
      simp [this]

theorem lookup_decode_encode (b : Balances)
    (hnd : (b.data.map Prod.fst).Nodup) (c : CoinSymbol) :
    lookupCoin ((Balances.decodeRLP ⟨[]⟩ b.encodeRLP).data) c =
      if c ∈ b.getCoins then some ((lookupCoin b.data c).getD 0) else none := by
  have hcoins : b.encodeRLP.map Balance.coin = b.getCoins := by
    rw [Balances.encodeRLP, List.map_map]
    induction b.getCoins with
    | nil => rfl
    | cons k t ih => simp only [List.map_cons, ih]; rfl
  rw [lookup_decode _ _ _ (hcoins ▸ getCoins_nodup b hnd)]
  rw [Balances.encodeRLP, lookupPairs_map]
  by_cases hc : c ∈ b.getCoins <;> simp [hc, lookupCoin]

/-- C5: decoding the canonical encoding of a well-formed balances map (unique
keys, non-negative amounts) restores exactly its non-zero entries, and no
zero-amount entry appears in the encoding. -/
theorem balances_roundtrip (b : Balances)
    (hnd : (b.data.map Prod.fst).Nodup)
    (hnn : ∀ p ∈ b.data, 0 ≤ p.2) :
    (∀ c a, a ≠ 0 →
      (lookupCoin ((Balances.decodeRLP ⟨[]⟩ b.encodeRLP).data) c = some a ↔
        lookupCoin b.data c = some a)) ∧
    ∀ p ∈ b.encodeRLP, p.amount ≠ 0 := by
  constructor
  · intro c a ha
    rw [lookup_decode_encode b hnd c]
    by_cases hc : c ∈ b.getCoins
    · obtain ⟨v, hv, hvp⟩ := (mem_getCoins b c).mp hc
      have hl : lookupCoin b.data c = some v := mem_lookupCoin hnd hv
      simp [hc, hl]
    · simp only [if_neg hc]
      constructor
      · intro h
        exact absurd h (by simp)
      · intro hl
        have hmem := lookupCoin_eq_some_mem hl
        have hpos : 0 < a := lt_of_le_of_ne (hnn _ hmem) (Ne.symm ha)
        exact absurd ((mem_getCoins b c).mpr ⟨a, hmem, hpos⟩) hc
  · intro p hp
    simp only [Balances.encodeRLP, List.mem_map] at hp
    obtain ⟨k, hk, rfl⟩ := hp
    obtain ⟨v, hv, hvp⟩ := (mem_getCoins b k).mp hk
    have hl : lookupCoin b.data k = some v := mem_lookupCoin hnd hv
    simp only [hl, Option.getD_some]
    exact ne_of_gt hvp

/-- Witness for C5 at a concrete balances map with a positive and a
zero-amount entry. -/
theorem balances_roundtrip_witness :
    ((((⟨[([1], 5), ([2], 0)]⟩ : Balances)).data.map Prod.fst).Nodup) ∧
    ((∀ c a, a ≠ 0 →
      (lookupCoin ((Balances.decodeRLP ⟨[]⟩
          (⟨[([1], 5), ([2], 0)]⟩ : Balances).encodeRLP).data) c = some a ↔
        lookupCoin (⟨[([1], 5), ([2], 0)]⟩ : Balances).data c = some a)) ∧
    ∀ p ∈ (⟨[([1], 5), ([2], 0)]⟩ : Balances).encodeRLP, p.amount ≠ 0) :=
  ⟨by decide, balances_roundtrip ⟨[([1], 5), ([2], 0)]⟩ (by decide) (by decide)⟩

/-- C6: in the canonical encoding, an entry whose coin has the larger
big-endian numeric value appears strictly earlier. -/
theorem balances_encode_order (b : Balances) (x y : CoinSymbol) (vx vy : Int)
    (hx : (x, vx) ∈ b.data) (hxp : 0 < vx)
    (hy : (y, vy) ∈ b.data) (hyp : 0 < vy)
    (hgt : beVal y < beVal x) :
    ∀ i j : Fin b.encodeRLP.length,
      (b.encodeRLP.get i).coin = x → (b.encodeRLP.get j).coin = y → i < j := by
  intro i j hi hj
  have hlen : b.encodeRLP.length = b.getCoins.length := by
    simp [Balances.encodeRLP]
  have hsorted : b.getCoins.Pairwise symbolGE :=
    List.sorted_insertionSort symbolGE _
  have hget : ∀ k : Fin b.encodeRLP.length,
      (b.encodeRLP.get k).coin = b.getCoins.get (k.cast hlen) := by
    intro k
    simp only [Balances.encodeRLP]
    rw [List.get_map]
    rfl
  rw [hget i] at hi
  rw [hget j] at hj
  by_contra hij
  rcases Nat.lt_or_ge j.val i.val with hlt | hge
  · have hord := List.pairwise_iff_get.mp hsorted (j.cast hlen) (i.cast hlen) hlt
    rw [hi, hj] at hord
    exact absurd hord (Nat.not_le.mpr hgt)
  · have hji : j.val = i.val := Nat.le_antisymm (Nat.le_of_not_lt (fun h => hij h)) hge
    have hcast : b.getCoins.get (j.cast hlen) = b.getCoins.get (i.cast hlen) := by
      congr 1
      exact Fin.ext hji
    rw [hi, hj] at hcast
    rw [hcast] at hgt
    exact Nat.lt_irrefl _ hgt

/-- Witness for C6 at a concrete two-entry balances map. -/
theorem balances_encode_order_witness :
    (([2], (7 : Int)) ∈ (⟨[([1], 5), ([2], 7)]⟩ : Balances).data ∧ (0 : Int) < 7 ∧
      ([1], (5 : Int)) ∈ (⟨[([1], 5), ([2], 7)]⟩ : Balances).data ∧ (0 : Int) < 5 ∧
      beVal [1] < beVal [2]) ∧
    ∀ i j : Fin (⟨[([1], 5), ([2], 7)]⟩ : Balances).encodeRLP.length,
      ((⟨[([1], 5), ([2], 7)]⟩ : Balances).encodeRLP.get i).coin = [2] →
      ((⟨[([1], 5), ([2], 7)]⟩ : Balances).encodeRLP.get j).coin = [1] → i < j :=
  ⟨⟨by decide, by decide, by decide, by decide, by decide⟩,
    balances_encode_order ⟨[([1], 5), ([2], 7)]⟩ [2] [1] 7 5
      (by decide) (by decide) (by decide) (by decide) (by decide)⟩

/-- A heap of balance maps.  Go map values are references, so the map held
by a state object's `Account` is a pointer into this heap; copying the
`Account` struct copies the pointer, not the storage. -/
structure Heap where
  maps : List (List (CoinSymbol × Int))
deriving DecidableEq

/-- `Account`: nonce, balance-map reference (`none` models a nil Go map)
and the opaque storage root. -/
structure Account where
  nonce : Nat
  balPtr : Option Nat
  root : Nat
deriving DecidableEq

/-- `stateObject`: one account plus cache flags.  The one-shot dirty
callback is modelled by its presence bit (`onDirty` holds a non-nil
function); the addresses it is called with are reported in each mutator's
result. -/
structure stateObject where
  address : Nat
  data : Account
  suicided : Bool
  touched : Bool
  deleted : Bool
  onDirty : Bool
deriving DecidableEq

/-- `stateObject.empty`: hardwired to `false` in the source (the historical
nonce/balance emptiness test is commented out). -/
def stateObject.empty (_ : stateObject) : Bool := false

/-- `newObject`: allocates a fresh empty balance map only when the given
account data carries a nil map, and otherwise keeps the given reference. -/
def newObject (h : Heap) (address : Nat) (data : Account) (onDirty : Bool) :
    Heap × stateObject :=
  match data.balPtr with
  | none =>
    (⟨h.maps ++ [[]]⟩,
      ⟨address, { data with balPtr := some h.maps.length }, false, false, false, onDirty⟩)
  | some _ => (h, ⟨address, data, false, false, false, onDirty⟩)

/-- `stateObject.Balance`: the stored amount, or zero for a nil map or an
absent entry. -/
def stateObject.Balance (h : Heap) (s : stateObject) (c : CoinSymbol) : Int :=
  match s.data.balPtr with
  | none => 0
  | some p => (lookupCoin (h.maps.getD p []) c).getD 0

/-- A mutator's result: new heap, new object, and the addresses the dirty
callback was fired with. -/
abbrev MutResult := (Heap × stateObject) × List Nat

/-- `stateObject.setBalance`: allocates the map if nil, writes the amount
through the shared map reference, and fires the dirty callback once if it
is still present. -/
def stateObject.setBalance (h : Heap) (s : stateObject) (c : CoinSymbol)
    (amount : Int) : MutResult :=
  let hs :=
    match s.data.balPtr with
    | none =>
      ((⟨h.maps ++ [[]]⟩ : Heap),
        { s with data := { s.data with balPtr := some h.maps.length } })
    | some _ => (h, s)
  let p := hs.2.data.balPtr.getD 0
  let h2 : Heap := ⟨hs.1.maps.set p (insertCoin (hs.1.maps.getD p []) c amount)⟩
  if hs.2.onDirty then (⟨h2, { hs.2 with onDirty := false }⟩, [hs.2.address])
  else ((h2, hs.2), [])

/-- `stateObject.SetBalance`: emits the balance-change event to the external
observability side channel (not modelled) and performs the write. -/
def stateObject.SetBalance (h : Heap) (s : stateObject) (c : CoinSymbol)
    (amount : Int) : MutResult :=
  stateObject.setBalance h s c amount

/-- `stateObject.touch`: fires the dirty callback if present and records the
touch. -/
def stateObject.touch (h : Heap) (s : stateObject) : MutResult :=
  if s.onDirty then ((h, { s with onDirty := false, touched := true }), [s.address])
  else ((h, { s with touched := true }), [])

/-- `stateObject.AddBalance`: a zero amount only touches an empty object
(never, since `empty` is `false`); otherwise writes the sum. -/
def stateObject.AddBalance (h : Heap) (s : stateObject) (c : CoinSymbol)
    (amount : Int) : MutResult :=
  if amount = 0 then
    if s.empty then stateObject.touch h s else ((h, s), [])
  else stateObject.SetBalance h s c (stateObject.Balance h s c + amount)

/-- `stateObject.SubBalance`: a zero amount is a no-op; otherwise writes the
difference. -/
def stateObject.SubBalance (h : Heap) (s : stateObject) (c : CoinSymbol)
    (amount : Int) : MutResult :=
  if amount = 0 then ((h, s), [])
  else stateObject.SetBalance h s c (stateObject.Balance h s c - amount)

/-- `stateObject.setNonce`: overwrites the nonce and fires the dirty
callback once if present. -/
def stateObject.setNonce (h : Heap) (s : stateObject) (n : Nat) : MutResult :=
  let s1 := { s with data := { s.data with nonce := n } }
  if s.onDirty then ((h, { s1 with onDirty := false }), [s.address])
  else ((h, s1), [])

/-- `stateObject.SetNonce` delegates to `setNonce`. -/
def stateObject.SetNonce (h : Heap) (s : stateObject) (n : Nat) : MutResult :=
  stateObject.setNonce h s n

/-- `stateObject.markSuicided`: sets the flag and fires the dirty callback
once if present. -/
def stateObject.markSuicided (h : Heap) (s : stateObject) : MutResult :=
  let s1 := { s with suicided := true }
  if s.onDirty then ((h, { s1 with onDirty := false }), [s.address])
  else ((h, s1), [])

/-- `stateObject.deepCopy`: `newObject` over the very same `Account` value —
including its balance-map reference — then the two flags. -/
def stateObject.deepCopy (h : Heap) (s : stateObject) (onDirty : Bool) :
    Heap × stateObject :=
  let r := newObject h s.address s.data onDirty
  (r.1, { r.2 with suicided := s.suicided, deleted := s.deleted })

/-- C2: `deepCopy` hands the copy the original's balance-map reference, so
a `SetBalance` on the copy is visible through the original: with the
original's balance at coin `[7]` equal to `0`, writing `5` through the copy
makes the original read `5`. -/
theorem deepCopy_shares_balance_map :
    stateObject.Balance (⟨[[]]⟩ : Heap)
        (⟨1, ⟨0, some 0, 0⟩, false, false, false, false⟩ : stateObject) [7] = 0 ∧
    stateObject.Balance
        (stateObject.SetBalance (⟨[[]]⟩ : Heap)
          (stateObject.deepCopy (⟨[[]]⟩ : Heap)
            (⟨1, ⟨0, some 0, 0⟩, false, false, false, false⟩ : stateObject) true).2
          [7] 5).1.1
        (⟨1, ⟨0, some 0, 0⟩, false, false, false, false⟩ : stateObject) [7] = 5 := by
  constructor <;> rfl

/-- One mutating call of the claim's list, as data. -/
inductive MutOp where
  | setBal (c : CoinSymbol) (a : Int)
  | addBal (c : CoinSymbol) (a : Int)
  | subBal (c : CoinSymbol) (a : Int)
  | setNon (n : Nat)
  | markSui
  | touchOp
deriving DecidableEq

/-- Dispatch one mutating call to the corresponding state-object method. -/
def applyOp (st : Heap × stateObject) (op : MutOp) : MutResult :=
  match op with
  | .setBal c a => stateObject.SetBalance st.1 st.2 c a
  | .addBal c a => stateObject.AddBalance st.1 st.2 c a
  | .subBal c a => stateObject.SubBalance st.1 st.2 c a
  | .setNon n => stateObject.SetNonce st.1 st.2 n
  | .markSui => stateObject.markSuicided st.1 st.2
  | .touchOp => stateObject.touch st.1 st.2

/-- Run a sequence of mutating calls, concatenating the dirty-callback
invocations each one reports. -/
def runOps (st : Heap × stateObject) : List MutOp → MutResult
  | [] => (st, [])
  | op :: t =>
    let r := applyOp st op
    let rest := runOps r.1 t
    (rest.1, r.2 ++ rest.2)

/-- `1` while the callback reference is still stored, `0` once cleared. -/
def dirtyCount (s : stateObject) : Nat := if s.onDirty then 1 else 0

/-- Ops that unconditionally reach the callback-firing site: all of the
claim's calls, with the zero-amount add/sub no-ops excluded. -/
def firesKind : MutOp → Prop
  | .addBal _ a => a ≠ 0
  | .subBal _ a => a ≠ 0
  | _ => True

theorem setBalance_fires (h : Heap) (s : stateObject) (c : CoinSymbol) (a : Int) :
    (stateObject.setBalance h s c a).2.length +
      dirtyCount (stateObject.setBalance h s c a).1.2 ≤ dirtyCount s := by
  unfold stateObject.setBalance
  cases hb : s.data.balPtr <;>
    simp only [dirtyCount] <;> split_ifs <;> simp_all

theorem applyOp_fires (st : Heap × stateObject) (op : MutOp) :
    (applyOp st op).2.length + dirtyCount (applyOp st op).1.2 ≤ dirtyCount st.2 := by
  cases op with
  | setBal c a =>
    simpa [applyOp, stateObject.SetBalance] using setBalance_fires st.1 st.2 c a
  | addBal c a =>
    by_cases h0 : a = 0
    · simp [applyOp, stateObject.AddBalance, h0, stateObject.empty]
    · simp only [applyOp, stateObject.AddBalance, if_neg h0]
      unfold stateObject.SetBalance
      exact setBalance_fires st.1 st.2 c _
  | subBal c a =>
    by_cases h0 : a = 0
    · simp [applyOp, stateObject.SubBalance, h0]
    · simp only [applyOp, stateObject.SubBalance, if_neg h0]
      unfold stateObject.SetBalance
      exact setBalance_fires st.1 st.2 c _
  | setNon n =>
    simp only [applyOp, stateObject.SetNonce, stateObject.setNonce, dirtyCount]
    split_ifs <;> simp_all
  | markSui =>
    simp only [applyOp, stateObject.markSuicided, dirtyCount]
    split_ifs <;> simp_all
  | touchOp =>
    simp only [applyOp, stateObject.touch, dirtyCount]
    split_ifs <;> simp_all

theorem runOps_fires (st : Heap × stateObject) (ops : List MutOp) :
    (runOps st ops).2.length + dirtyCount (runOps st ops).1.2 ≤ dirtyCount st.2 := by
  induction ops generalizing st with
  | nil => simp [runOps]
  | cons op t ih =>
    simp only [runOps, List.length_append]
    have h1 := applyOp_fires st op
    have h2 := ih (applyOp st op).1
    omega

theorem setBalance_fires_first (h : Heap) (s : stateObject) (c : CoinSymbol)
    (a : Int) (hd : s.onDirty = true) :
    (stateObject.setBalance h s c a).2 = [s.address] ∧
      (stateObject.setBalance h s c a).1.2.onDirty = false := by
  unfold stateObject.setBalance
  cases hb : s.data.balPtr <;> simp [hd]

theorem applyOp_fires_first (st : Heap × stateObject) (op : MutOp)
    (hop : firesKind op) (hd : st.2.onDirty = true) :
    (applyOp st op).2 = [st.2.address] ∧ (applyOp st op).1.2.onDirty = false := by
  cases op with
  | setBal c a =>
    simpa [applyOp, stateObject.SetBalance] using
      setBalance_fires_first st.1 st.2 c a hd
  | addBal c a =>
    simp only [firesKind] at hop
    simp only [applyOp, stateObject.AddBalance, if_neg hop, stateObject.SetBalance]
    exact setBalance_fires_first st.1 st.2 c _ hd
  | subBal c a =>
    simp only [firesKind] at hop
    simp only [applyOp, stateObject.SubBalance, if_neg hop, stateObject.SetBalance]
    exact setBalance_fires_first st.1 st.2 c _ hd
  | setNon n =>
    simp [applyOp, stateObject.SetNonce, stateObject.setNonce, hd]
  | markSui =>
    simp [applyOp, stateObject.markSuicided, hd]
  | touchOp =>
    simp [applyOp, stateObject.touch, hd]

/-- C4: across any sequence of mutating calls, the dirty callback fires at
most once over the object's lifetime; the first unconditionally-mutating
call fires it with the object's address and clears the stored reference. -/
theorem dirty_callback_at_most_once (st : Heap × stateObject) (ops : List MutOp) :
    (runOps st ops).2.length ≤ 1 ∧
    (∀ op, firesKind op → st.2.onDirty = true →
      (applyOp st op).2 = [st.2.address] ∧ (applyOp st op).1.2.onDirty = false) := by
  constructor
  · have h1 := runOps_fires st ops
    have h2 : dirtyCount st.2 ≤ 1 := by
      simp only [dirtyCount]
      split_ifs <;> omega
    omega
  · intro op hop hd
    exact applyOp_fires_first st op hop hd

/-- Witness for C4 at a concrete object and call sequence. -/
theorem dirty_callback_at_most_once_witness :
    (runOps ((⟨[[]]⟩ : Heap), (⟨3, ⟨0, some 0, 0⟩, false, false, false, true⟩ : stateObject))
        [.setBal [7] 5, .setNon 2, .markSui, .touchOp]).2.length ≤ 1 ∧
    (∀ op, firesKind op →
      ((⟨3, ⟨0, some 0, 0⟩, false, false, false, true⟩ : stateObject)).onDirty = true →
      (applyOp ((⟨[[]]⟩ : Heap), (⟨3, ⟨0, some 0, 0⟩, false, false, false, true⟩ : stateObject)) op).2 =
        [(⟨3, ⟨0, some 0, 0⟩, false, false, false, true⟩ : stateObject).address] ∧
      (applyOp ((⟨[[]]⟩ : Heap), (⟨3, ⟨0, some 0, 0⟩, false, false, false, true⟩ : stateObject)) op).1.2.onDirty = false) :=
  dirty_callback_at_most_once
    ((⟨[[]]⟩ : Heap), (⟨3, ⟨0, some 0, 0⟩, false, false, false, true⟩ : stateObject))
    [.setBal [7] 5, .setNon 2, .markSui, .touchOp]

end State

/-! ### The `check` package -/

/-- An RLP-encodable item, as handed to `rlpHash`'s interface list.  The
byte-level RLP encoder and the keccak-256 hash are outside these sources;
`rlpHash` is modelled as an abstract function of this structured input. -/
inductive RVal where
  | nat (n : Nat)
  | bytes (b : List Nat)
  | bigInt (i : Option Int)
  | list (l : List RVal)

/-- The `Check` struct; `*big.Int` fields are `Option Int`, a nil pointer
being `none`. -/
structure Check where
  Nonce : Nat
  DueBlock : Nat
  Coin : CoinSymbol
  Value : Option Int
  Lock : Option Int
  V : Option Int
  R : Option Int
  S : Option Int
deriving DecidableEq

/-- The item list `Check.Hash` feeds to `rlpHash`:
`{Nonce, DueBlock, Coin, Value, Lock}`. -/
def hashPayload (c : Check) : RVal :=
  .list [.nat c.Nonce, .nat c.DueBlock, .bytes c.Coin, .bigInt c.Value,
    .bigInt c.Lock]

/-- `Check.Hash`: `rlpHash` — modelled by the abstract `H` — over
`{Nonce, DueBlock, Coin, Value, Lock}`.  `V`, `R`, `S` are not part of the
input. -/
def Check.Hash {α : Type} (H : RVal → α) (c : Check) : α := H (hashPayload c)

/-- The item list `Check.LockPubKey` hashes before calling `Ecrecover` with
the `Lock` bytes: `{Nonce, DueBlock, Coin, Value}`, `Lock` excluded. -/
def lockPayload (c : Check) : RVal :=
  .list [.nat c.Nonce, .nat c.DueBlock, .bytes c.Coin, .bigInt c.Value]

/-- The hash `LockPubKey` recovers the issuer key against. -/
def lockHash {α : Type} (H : RVal → α) (c : Check) : α := H (lockPayload c)

/-- C7: `Hash` covers exactly `{Nonce, DueBlock, Coin, Value, Lock}` and the
lock-layer hash covers exactly `{Nonce, DueBlock, Coin, Value}`: two checks
agreeing on nonce, due block, coin and value have equal lock-layer hashes;
if their locks also agree (so they differ at most in `V`, `R`, `S`) their
hashes agree, and if their locks differ their hashes differ (for an
injective hash, the modelling of collision resistance). -/
theorem check_hash_fields {α : Type} (H : RVal → α)
    (hinj : Function.Injective H) (c1 c2 : Check)
    (hN : c1.Nonce = c2.Nonce) (hD : c1.DueBlock = c2.DueBlock)
    (hC : c1.Coin = c2.Coin) (hVal : c1.Value = c2.Value) :
    (c1.Lock = c2.Lock → Check.Hash H c1 = Check.Hash H c2) ∧
    lockHash H c1 = lockHash H c2 ∧
    (c1.Lock ≠ c2.Lock → Check.Hash H c1 ≠ Check.Hash H c2) := by
  refine ⟨fun hL => ?_, ?_, fun hL heq => ?_⟩
  · simp [Check.Hash, hashPayload, hN, hD, hC, hVal, hL]
  · simp [lockHash, lockPayload, hN, hD, hC, hVal]
  · have h2 := hinj heq
    simp only [hashPayload, RVal.list.injEq, List.cons.injEq, and_true] at h2
    have h3 : RVal.bigInt c1.Lock = RVal.bigInt c2.Lock := h2.2.2.2.2
    injection h3 with h4
    exact hL h4

/-- Witness for C7 at two concrete checks differing in `Lock` and `V`,
with the identity as the injective hash. -/
theorem check_hash_fields_witness :
    Function.Injective (fun r : RVal => r) ∧
    (((⟨1, 2, [3], some 4, some 5, none, none, none⟩ : Check).Lock =
        (⟨1, 2, [3], some 4, some 6, some 27, none, none⟩ : Check).Lock →
      Check.Hash (fun r : RVal => r) (⟨1, 2, [3], some 4, some 5, none, none, none⟩ : Check) =
        Check.Hash (fun r : RVal => r) (⟨1, 2, [3], some 4, some 6, some 27, none, none⟩ : Check)) ∧
    lockHash (fun r : RVal => r) (⟨1, 2, [3], some 4, some 5, none, none, none⟩ : Check) =
      lockHash (fun r : RVal => r) (⟨1, 2, [3], some 4, some 6, some 27, none, none⟩ : Check) ∧
    ((⟨1, 2, [3], some 4, some 5, none, none, none⟩ : Check).Lock ≠
        (⟨1, 2, [3], some 4, some 6, some 27, none, none⟩ : Check).Lock →
      Check.Hash (fun r : RVal => r) (⟨1, 2, [3], some 4, some 5, none, none, none⟩ : Check) ≠
        Check.Hash (fun r : RVal => r) (⟨1, 2, [3], some 4, some 6, some 27, none, none⟩ : Check))) :=
  ⟨fun _ _ h => h,
    check_hash_fields (fun r => r) (fun _ _ h => h)
      ⟨1, 2, [3], some 4, some 5, none, none, none⟩
      ⟨1, 2, [3], some 4, some 6, some 27, none, none⟩ rfl rfl rfl rfl⟩

/-- Binary-digit counter, structurally recursive on a fuel bound. -/
def bitLenGo : Nat → Nat → Nat
  | 0, _ => 0
  | fuel + 1, n => if n = 0 then 0 else bitLenGo fuel (n / 2) + 1

/-- `big.Int.BitLen` of a magnitude: the number of binary digits (`n`
itself bounds that count, so it serves as fuel). -/
def bitLen (n : Nat) : Nat := bitLenGo n n

/-- `byte(Vb.Uint64() - 27)`: the low 64 bits of the magnitude, minus 27
with uint64 wraparound, truncated to a byte. -/
def vByte (v : Int) : Nat := (v.natAbs % 2 ^ 64 + (2 ^ 64 - 27)) % 2 ^ 64 % 256

/-- Whether an `error` result was returned. -/
def isError {ε β : Type} : Except ε β → Bool
  | .error _ => true
  | .ok _ => false

/-- `recoverPlain`.  The external crypto primitives are parameters:
`validateSig` models `crypto.ValidateSignatureValues(V byte, r, s)`,
`ecrecover` models `crypto.Ecrecover` applied to the sighash and the packed
65-byte signature (left-padded `R`, left-padded `S`, recovery byte), and
`keccak` models `crypto.Keccak256`. -/
def recoverPlain {α : Type} (validateSig : Nat → Int → Int → Bool)
    (ecrecover : α → Int → Int → Nat → Except String (List Nat))
    (keccak : List Nat → List Nat) (sighash : α) (R S Vb : Int) :
    Except String (List Nat) :=
  if 8 < bitLen Vb.natAbs then .error "invalid transaction v, r, s values"
  else if validateSig (vByte Vb) R S = false then
    .error "invalid transaction v, r, s values"
  else
    match ecrecover sighash R S (vByte Vb) with
    | .error e => .error e
    | .ok pub =>
      if pub.length = 0 ∨ pub.headD 0 ≠ 4 then .error "invalid public key"
      else .ok ((keccak (pub.drop 1)).drop 12)

/-- `Check.Sender`: `recoverPlain(check.Hash(), check.R, check.S, check.V)`.
The Go code dereferences the three signature pointers; a nil field is read
as zero here, and the theorems quantify over checks whose signature fields
are non-nil. -/
def Check.Sender {α : Type} (H : RVal → α) (validateSig : Nat → Int → Int → Bool)
    (ecrecover : α → Int → Int → Nat → Except String (List Nat))
    (keccak : List Nat → List Nat) (c : Check) : Except String (List Nat) :=
  recoverPlain validateSig ecrecover keccak (Check.Hash H c)
    (c.R.getD 0) (c.S.getD 0) (c.V.getD 0)

/-- The error condition asserted by the claim for `Sender`: the magnitude
of `V` after the minus-27 normalization exceeds one byte, or `R`/`S`
validation fails, or recovery fails, or the recovered key is empty or not
tagged uncompressed. -/
def senderClaimErrCond {α : Type} (validateSig : Nat → Int → Int → Bool)
    (ecrecover : α → Int → Int → Nat → Except String (List Nat))
    (sighash : α) (R S Vb : Int) : Prop :=
  256 ≤ (Vb - 27).natAbs ∨
  validateSig (vByte Vb) R S = false ∨
  (∃ e, ecrecover sighash R S (vByte Vb) = .error e) ∨
  (∃ pub, ecrecover sighash R S (vByte Vb) = .ok pub ∧
    (pub.length = 0 ∨ pub.headD 0 ≠ 4))

/-- C8 counterexample: at `V = 256`, `R = S = 1`, with accepting
primitives, `Sender` fails — the code checks `BitLen(V) > 8` before the
minus-27 normalization — although the claimed error condition, which
normalizes first (`|256 - 27| = 229` fits one byte), is false. -/
theorem sender_v_check_counterexample :
    isError (Check.Sender (fun r : RVal => r) (fun _ _ _ => true)
      (fun _ _ _ _ => .ok [4, 9]) (fun b => b)
      (⟨1, 2, [3], some 4, some 5, some 256, some 1, some 1⟩ : Check)) = true ∧
    ¬ senderClaimErrCond (fun _ _ _ => true) (fun _ _ _ _ => .ok [4, 9])
      (Check.Hash (fun r : RVal => r)
        (⟨1, 2, [3], some 4, some 5, some 256, some 1, some 1⟩ : Check))
      1 1 256 := by
  constructor
  · decide
  · intro hcond
    rcases hcond with h | h | h | h
    · exact absurd h (by decide)
    · exact absurd h (by decide)
    · obtain ⟨e, he⟩ := h
      cases he
    · obtain ⟨pub, hpub, hbad⟩ := h
      have : pub = [4, 9] := by
        injection hpub with h1
        exact h1.symm
      subst this
      rcases hbad with h2 | h2 <;> exact absurd h2 (by decide)

/-- C8 amended: for non-nil `V`, `R`, `S`, `Sender` fails exactly when
`BitLen(V) > 8` (this check precedes the minus-27 normalization), or
`ValidateSignatureValues` on the normalized recovery byte fails, or
`Ecrecover` fails, or the recovered key is empty or not tagged
uncompressed; otherwise it returns the last 20 bytes (drop 12 of 32) of
the keccak hash of the key without its tag byte. -/
theorem sender_error_cases {α : Type} (H : RVal → α)
    (validateSig : Nat → Int → Int → Bool)
    (ecrecover : α → Int → Int → Nat → Except String (List Nat))
    (keccak : List Nat → List Nat) (c : Check) (R S Vb : Int)
    (hR : c.R = some R) (hS : c.S = some S) (hV : c.V = some Vb) :
    (isError (Check.Sender H validateSig ecrecover keccak c) = true ↔
      (8 < bitLen Vb.natAbs ∨
       validateSig (vByte Vb) R S = false ∨
       (∃ e, ecrecover (Check.Hash H c) R S (vByte Vb) = .error e) ∨
       (∃ pub, ecrecover (Check.Hash H c) R S (vByte Vb) = .ok pub ∧
         (pub.length = 0 ∨ pub.headD 0 ≠ 4)))) ∧
    ∀ pub, ecrecover (Check.Hash H c) R S (vByte Vb) = .ok pub →
      ¬ 8 < bitLen Vb.natAbs → validateSig (vByte Vb) R S = true →
      ¬ (pub.length = 0 ∨ pub.headD 0 ≠ 4) →
      Check.Sender H validateSig ecrecover keccak c =
        .ok ((keccak (pub.drop 1)).drop 12) := by
  simp only [Check.Sender, hR, hS, hV, Option.getD_some]
  unfold recoverPlain
  constructor
  · by_cases h1 : 8 < bitLen Vb.natAbs
    · exact iff_of_true (by simp [isError, h1]) (Or.inl h1)
    · rw [if_neg h1]
      by_cases h2 : validateSig (vByte Vb) R S = false
      · exact iff_of_true (by simp [isError, h2]) (Or.inr (Or.inl h2))
      · rw [if_neg h2]
        cases hec : ecrecover (Check.Hash H c) R S (vByte Vb) with
        | error e =>
          exact iff_of_true (by simp [isError]) (Or.inr (Or.inr (Or.inl ⟨e, rfl⟩)))
        | ok pub =>
          dsimp only
          by_cases h3 : pub.length = 0 ∨ pub.headD 0 ≠ 4
          · rw [if_pos h3]
            exact iff_of_true (by simp [isError])
              (Or.inr (Or.inr (Or.inr ⟨pub, rfl, h3⟩)))
          · rw [if_neg h3]
            refine iff_of_false (by simp [isError]) ?_
            intro hcond
            rcases hcond with h | h | ⟨e, he⟩ | ⟨q, hq, hbad⟩
            · exact h1 h
            · exact h2 h
            · cases he
            · injection hq with h4
              refine h3 ?_
              rw [h4]
              exact hbad
  · intro pub hec h1 h2 h3
    rw [if_neg h1, if_neg (by simp [h2]), hec]
    dsimp only
    rw [if_neg h3]

/-- Witness for C8's amended theorem at a concrete check accepted end to
end by concrete primitives. -/
theorem sender_error_cases_witness :
    ((⟨1, 2, [3], some 4, some 5, some 27, some 1, some 1⟩ : Check).R = some 1 ∧
      (⟨1, 2, [3], some 4, some 5, some 27, some 1, some 1⟩ : Check).S = some 1 ∧
      (⟨1, 2, [3], some 4, some 5, some 27, some 1, some 1⟩ : Check).V = some 27) ∧
    Check.Sender (fun r : RVal => r) (fun _ _ _ => true)
      (fun _ _ _ _ => .ok [4, 9]) (fun b => b)
      (⟨1, 2, [3], some 4, some 5, some 27, some 1, some 1⟩ : Check) =
      .ok (((fun (b : List Nat) => b) ([4, 9].drop 1)).drop 12) :=
  ⟨⟨rfl, rfl, rfl⟩,
    (sender_error_cases (fun r : RVal => r) (fun _ _ _ => true)
      (fun _ _ _ _ => .ok [4, 9]) (fun b => b)
      ⟨1, 2, [3], some 4, some 5, some 27, some 1, some 1⟩ 1 1 27
      rfl rfl rfl).2 [4, 9] rfl (by decide) rfl (by decide)⟩

/-- `DecodeFromBytes`: decodes the buffer via `rlp.Decode` — outside these
sources, modelled as an arbitrary decoder from the buffer to a decoded
`Check` and an optional decode error — discards the decode error, and
rejects exactly the checks left with a nil `S`, `R` or `V`. -/
def DecodeFromBytes (rlpDecode : List Nat → Check × Option String)
    (buf : List Nat) : Except String Check :=
  let check := (rlpDecode buf).1
  if check.S = none ∨ check.R = none ∨ check.V = none then
    .error "incorrect tx signature"
  else .ok check

/-- C10: `DecodeFromBytes` errs (returning no check) exactly when one of
the decoded `V`, `R`, `S` is nil, and the decoder's own error value is
discarded: a decoder outcome that reports an error while filling `V`, `R`,
`S` still yields a check and no error. -/
theorem decodeFromBytes_spec :
    (∀ (rlpDecode : List Nat → Check × Option String) (buf : List Nat),
      (∃ e, DecodeFromBytes rlpDecode buf = .error e) ↔
        ((rlpDecode buf).1.V = none ∨ (rlpDecode buf).1.R = none ∨
          (rlpDecode buf).1.S = none)) ∧
    ∃ (rlpDecode : List Nat → Check × Option String) (buf : List Nat),
      (rlpDecode buf).2 ≠ none ∧
        ∃ c, DecodeFromBytes rlpDecode buf = .ok c := by
  constructor
  · intro rlpDecode buf
    unfold DecodeFromBytes
    by_cases h : (rlpDecode buf).1.S = none ∨ (rlpDecode buf).1.R = none ∨
        (rlpDecode buf).1.V = none
    · simp only [if_pos h]
      constructor
      · intro _
        tauto
      · intro _
        exact ⟨"incorrect tx signature", rfl⟩
    · simp only [if_neg h]
      constructor
      · rintro ⟨e, he⟩
        cases he
      · intro h2
        exact absurd (by tauto) h
  · refine ⟨fun _ => (⟨0, 0, [], none, none, some 0, some 0, some 0⟩,
      some "rlp: input contains more than one value"), [], by simp, ?_⟩
    exact ⟨⟨0, 0, [], none, none, some 0, some 0, some 0⟩, rfl⟩

/-! ### The `transaction` package: the delegation transaction -/

namespace Txn

/-- An account address (opaque identifier). -/
abbrev Address := Nat

/-- A candidate public key (opaque identifier). -/
abbrev PubKey := Nat

/-- Generic association-list lookup (Go map read). -/
def assocLookup {κ β : Type} [DecidableEq κ] : List (κ × β) → κ → Option β
  | [], _ => none
  | (k, v) :: t, q => if k = q then some v else assocLookup t q

/-- Generic association-list write (Go map assignment). -/
def assocInsert {κ β : Type} [DecidableEq κ] : List (κ × β) → κ → β → List (κ × β)
  | [], q, b => [(q, b)]
  | (k, v) :: t, q, b => if k = q then (k, b) :: t else (k, v) :: assocInsert t q b

/-- Coin metadata served by `GetStateCoin`: volume, reserve balance and
constant reserve ratio. -/
structure CoinData where
  volume : Int
  reserveBalance : Int
  crr : Nat
deriving DecidableEq

/-- The slice of the state manager the delegation transaction consumes.
Modelled from the spec: only the `stateObject` internals are in the
sources, so the `StateDB` coin registry, balances, nonces, candidate
registry and delegation records are modelled as finite maps with the
interface semantics of the specification's state-manager interface. -/
structure StateDB where
  coins : List (CoinSymbol × CoinData)
  balances : List ((Address × CoinSymbol) × Int)
  nonces : List (Address × Nat)
  candidates : List PubKey
  delegations : List (Address × PubKey × CoinSymbol × Int)
deriving DecidableEq

/-- Modelled from the spec: `CoinExists(symbol)`. -/
def StateDB.CoinExists (db : StateDB) (c : CoinSymbol) : Bool :=
  (assocLookup db.coins c).isSome

/-- Modelled from the spec: `GetStateCoin(symbol)`. -/
def StateDB.GetStateCoin (db : StateDB) (c : CoinSymbol) : CoinData :=
  (assocLookup db.coins c).getD ⟨0, 0, 0⟩

/-- Modelled from the spec: `GetBalance(addr, symbol)`, zero when absent. -/
def StateDB.GetBalance (db : StateDB) (a : Address) (c : CoinSymbol) : Int :=
  (assocLookup db.balances (a, c)).getD 0

/-- Modelled from the spec: `SubBalance(addr, symbol, amount)`. -/
def StateDB.SubBalance (db : StateDB) (a : Address) (c : CoinSymbol)
    (amt : Int) : StateDB :=
  { db with balances := assocInsert db.balances (a, c) (db.GetBalance a c - amt) }

/-- Modelled from the spec: `SetNonce(addr, nonce)`. -/
def StateDB.SetNonce (db : StateDB) (a : Address) (n : Nat) : StateDB :=
  { db with nonces := assocInsert db.nonces a n }

/-- Modelled from the spec: `CandidateExists(pubkey)`. -/
def StateDB.CandidateExists (db : StateDB) (p : PubKey) : Bool :=
  decide (p ∈ db.candidates)

/-- Modelled from the spec: `Delegate(addr, pubkey, coin, amount)` records
the delegation. -/
def StateDB.Delegate (db : StateDB) (a : Address) (p : PubKey) (c : CoinSymbol)
    (amt : Int) : StateDB :=
  { db with delegations := db.delegations ++ [(a, p, c, amt)] }

/-- `CommissionMultiplier` (base units per commission unit; the claims do
not depend on its value). -/
def CommissionMultiplier : Int := 1000000000000000

/-- `types.GetBaseCoin()`: the base coin symbol, zero-padded. -/
def GetBaseCoin : CoinSymbol := [66, 73, 80, 0, 0, 0, 0, 0, 0, 0]

/-- The transaction-envelope fields `Run` reads; `gas` models `tx.Gas()`,
the payload's fixed gas cost. -/
structure Transaction where
  nonce : Nat
  gasPrice : Int
  gasCoin : CoinSymbol
  gas : Int
deriving DecidableEq

/-- The result codes of `core/code` reachable from the delegation path. -/
inductive RCode where
  | OK
  | CoinNotExists
  | StakeShouldBePositive
  | CoinReserveNotSufficient
  | InsufficientFunds
  | CandidateNotFound
deriving DecidableEq

/-- `Response`; the diagnostic log strings are not modelled. -/
structure Response where
  code : RCode
  gasUsed : Int
  gasWanted : Int
deriving DecidableEq

/-- `DelegateData`: the delegation payload. -/
structure DelegateData where
  pubKey : PubKey
  coin : CoinSymbol
  stake : Int
deriving DecidableEq

/-- `commissionInBaseCoin = tx.GasPrice × tx.Gas() × CommissionMultiplier`. -/
def commissionInBaseCoin (tx : Transaction) : Int :=
  tx.gasPrice * tx.gas * CommissionMultiplier

/-- The gas-coin commission `Run` charges: the base-unit commission for the
base coin, otherwise the bonding-curve sale amount (`CalculateSaleAmount`
is an external pure function, passed as `calcSale`). -/
def commissionOf (calcSale : Int → Int → Nat → Int → Int) (tx : Transaction)
    (db : StateDB) : Int :=
  if tx.gasCoin = GetBaseCoin then commissionInBaseCoin tx
  else
    calcSale (db.GetStateCoin tx.gasCoin).volume
      (db.GetStateCoin tx.gasCoin).reserveBalance
      (db.GetStateCoin tx.gasCoin).crr (commissionInBaseCoin tx)

/-- `DelegateData.Run`: gas-coin existence, positive stake, reserve
sufficiency for a non-base gas coin, the three balance checks, the
candidate check, then — only when `isCheck` is false — the reward-pool
credit, the two debits, the delegation record and the nonce write.  The
returned triple is the `Response` plus the resulting state and reward
pool. -/
def DelegateData.Run (calcSale : Int → Int → Nat → Int → Int)
    (data : DelegateData) (sender : Address) (tx : Transaction)
    (context : StateDB) (isCheck : Bool) (rewardPool : Int)
    (_currentBlock : Nat) : Response × StateDB × Int :=
  if context.CoinExists tx.gasCoin = false then
    (⟨.CoinNotExists, 0, 0⟩, context, rewardPool)
  else if data.stake ≤ 0 then
    (⟨.StakeShouldBePositive, 0, 0⟩, context, rewardPool)
  else if tx.gasCoin ≠ GetBaseCoin ∧
      (context.GetStateCoin tx.gasCoin).reserveBalance < commissionInBaseCoin tx then
    (⟨.CoinReserveNotSufficient, 0, 0⟩, context, rewardPool)
  else if context.GetBalance sender tx.gasCoin < commissionOf calcSale tx context then
    (⟨.InsufficientFunds, 0, 0⟩, context, rewardPool)
  else if context.GetBalance sender data.coin < data.stake then
    (⟨.InsufficientFunds, 0, 0⟩, context, rewardPool)
  else if data.coin = tx.gasCoin ∧
      context.GetBalance sender tx.gasCoin <
        data.stake + commissionOf calcSale tx context then
    (⟨.InsufficientFunds, 0, 0⟩, context, rewardPool)
  else if context.CandidateExists data.pubKey = false then
    (⟨.CandidateNotFound, 0, 0⟩, context, rewardPool)
  else if isCheck then
    (⟨.OK, tx.gas, tx.gas⟩, context, rewardPool)
  else
    (⟨.OK, tx.gas, tx.gas⟩,
      (((context.SubBalance sender tx.gasCoin
            (commissionOf calcSale tx context)).SubBalance sender
          data.coin data.stake).Delegate sender data.pubKey data.coin
          data.stake).SetNonce sender tx.nonce,
      rewardPool + commissionInBaseCoin tx)

/-- C1: validation is identical for both `isCheck` values — a run that
succeeds with `isCheck = false` returns the same `OK` response with
`isCheck = true` while leaving the state and reward pool untouched — and
only the `isCheck = false` run applies exactly the listed mutations:
reward pool credited with the base-unit commission, gas-coin balance
debited by the commission, stake-coin balance debited by the stake, the
delegation recorded, and the sender's nonce set to the transaction's. -/
theorem delegate_run_mutation_gate (calcSale : Int → Int → Nat → Int → Int)
    (data : DelegateData) (sender : Address) (tx : Transaction)
    (context : StateDB) (rewardPool : Int) (blk : Nat)
    (hok : (DelegateData.Run calcSale data sender tx context false rewardPool blk).1.code = .OK) :
    DelegateData.Run calcSale data sender tx context true rewardPool blk =
      ((DelegateData.Run calcSale data sender tx context false rewardPool blk).1,
        context, rewardPool) ∧
    DelegateData.Run calcSale data sender tx context false rewardPool blk =
      (⟨.OK, tx.gas, tx.gas⟩,
        (((context.SubBalance sender tx.gasCoin
              (commissionOf calcSale tx context)).SubBalance sender data.coin
            data.stake).Delegate sender data.pubKey data.coin
            data.stake).SetNonce sender tx.nonce,
        rewardPool + commissionInBaseCoin tx) := by
  unfold DelegateData.Run at *
  split_ifs at * <;> first
    | simp_all
    | (split_ifs at hok <;> simp_all)

/-- A sample sale formula for concrete runs. -/
def sampleCalc : Int → Int → Nat → Int → Int := fun _ _ _ a => a

/-- A sample state: base coin registered, sender 1 holding 100 base coins,
candidate 5 registered. -/
def sampleDb : StateDB :=
  ⟨[(GetBaseCoin, ⟨0, 0, 0⟩)], [((1, GetBaseCoin), 100)], [], [5], []⟩

/-- A sample zero-gas-price delegation envelope. -/
def sampleTx : Transaction := ⟨7, 0, GetBaseCoin, 100⟩

/-- A sample delegation payload: stake 50 base coins to candidate 5. -/
def sampleData : DelegateData := ⟨5, GetBaseCoin, 50⟩

/-- Witness for C1 at a concrete succeeding delegation. -/
theorem delegate_run_mutation_gate_witness :
    (DelegateData.Run sampleCalc sampleData 1 sampleTx sampleDb false 0 0).1.code = .OK ∧
    (DelegateData.Run sampleCalc sampleData 1 sampleTx sampleDb true 0 0 =
      ((DelegateData.Run sampleCalc sampleData 1 sampleTx sampleDb false 0 0).1,
        sampleDb, 0) ∧
    DelegateData.Run sampleCalc sampleData 1 sampleTx sampleDb false 0 0 =
      (⟨.OK, sampleTx.gas, sampleTx.gas⟩,
        (((sampleDb.SubBalance 1 sampleTx.gasCoin
              (commissionOf sampleCalc sampleTx sampleDb)).SubBalance 1
            sampleData.coin sampleData.stake).Delegate 1 sampleData.pubKey
            sampleData.coin sampleData.stake).SetNonce 1 sampleTx.nonce,
        0 + commissionInBaseCoin sampleTx)) :=
  ⟨by decide,
    delegate_run_mutation_gate sampleCalc sampleData 1 sampleTx sampleDb 0 0 (by decide)⟩

/-- C3 counterexample: with the gas coin registered but the payload's stake
coin `[9]` unregistered, `Run` returns `InsufficientFunds` (the zero
balance in the unknown coin fails the stake check), not `CoinNotExists`:
the stake coin's existence is never validated. -/
theorem delegate_stake_coin_not_checked :
    StateDB.CoinExists sampleDb [9] = false ∧
    (DelegateData.Run sampleCalc ⟨5, [9], 1⟩ 1 sampleTx sampleDb false 0 0).1.code =
      .InsufficientFunds ∧
    (DelegateData.Run sampleCalc ⟨5, [9], 1⟩ 1 sampleTx sampleDb false 0 0).1.code ≠
      .CoinNotExists := by
  refine ⟨by decide, by decide, by decide⟩

/-- C3 amended: `Run` checks only the gas coin's existence — when the gas
coin does not exist it returns `CoinNotExists` before any other validation
or mutation, for both `isCheck` values; the payload's stake coin is not
separately checked. -/
theorem delegate_gas_coin_check (calcSale : Int → Int → Nat → Int → Int)
    (data : DelegateData) (sender : Address) (tx : Transaction)
    (context : StateDB) (isCheck : Bool) (rp : Int) (blk : Nat)
    (h : context.CoinExists tx.gasCoin = false) :
    DelegateData.Run calcSale data sender tx context isCheck rp blk =
      (⟨.CoinNotExists, 0, 0⟩, context, rp) := by
  unfold DelegateData.Run
  rw [if_pos h]

/-- Witness for C3's amended theorem on an empty coin registry. -/
theorem delegate_gas_coin_check_witness :
    StateDB.CoinExists ⟨[], [], [], [], []⟩ sampleTx.gasCoin = false ∧
    DelegateData.Run sampleCalc sampleData 1 sampleTx ⟨[], [], [], [], []⟩ true 0 0 =
      (⟨.CoinNotExists, 0, 0⟩, ⟨[], [], [], [], []⟩, 0) :=
  ⟨by decide,
    delegate_gas_coin_check sampleCalc sampleData 1 sampleTx
      ⟨[], [], [], [], []⟩ true 0 0 (by decide)⟩

/-- C9: when the stake coin equals the gas coin, the balance covers the
commission and the stake individually but not their sum, `Run` returns
`InsufficientFunds` and leaves the state and reward pool untouched,
whatever `isCheck` is (given the checks that precede: the gas coin exists,
the stake is positive, and for a non-base gas coin the reserve backs the
base-unit commission). -/
theorem delegate_combined_insufficient (calcSale : Int → Int → Nat → Int → Int)
    (data : DelegateData) (sender : Address) (tx : Transaction)
    (context : StateDB) (isCheck : Bool) (rp : Int) (blk : Nat)
    (hex : context.CoinExists tx.gasCoin = true)
    (hstake : 0 < data.stake)
    (hsame : data.coin = tx.gasCoin)
    (hres : tx.gasCoin = GetBaseCoin ∨
      commissionInBaseCoin tx ≤ (context.GetStateCoin tx.gasCoin).reserveBalance)
    (hc : commissionOf calcSale tx context ≤ context.GetBalance sender tx.gasCoin)
    (hs : data.stake ≤ context.GetBalance sender tx.gasCoin)
    (hlt : context.GetBalance sender tx.gasCoin <
      data.stake + commissionOf calcSale tx context) :
    DelegateData.Run calcSale data sender tx context isCheck rp blk =
      (⟨.InsufficientFunds, 0, 0⟩, context, rp) := by
  have h3 : ¬(tx.gasCoin ≠ GetBaseCoin ∧
      (context.GetStateCoin tx.gasCoin).reserveBalance < commissionInBaseCoin tx) := by
    rcases hres with h | h
    · exact fun hcon => hcon.1 h
    · exact fun hcon => absurd hcon.2 (not_lt.mpr h)
  unfold DelegateData.Run
  rw [if_neg (by simp [hex]), if_neg (not_le.mpr hstake),
    if_neg h3, if_neg (not_lt.mpr hc),
    if_neg (by rw [hsame]; exact not_lt.mpr hs), if_pos ⟨hsame, hlt⟩]

/-- Witness for C9: balance 10^17 covers the 10^17 commission and the
stake of 60, but not their sum. -/
theorem delegate_combined_insufficient_witness :
    (StateDB.CoinExists
        (⟨[(GetBaseCoin, ⟨0, 0, 0⟩)], [((1, GetBaseCoin), 100000000000000000)],
          [], [5], []⟩ : StateDB) GetBaseCoin = true ∧
      (0 : Int) < 60 ∧
      commissionOf sampleCalc (⟨7, 1, GetBaseCoin, 100⟩ : Transaction)
          (⟨[(GetBaseCoin, ⟨0, 0, 0⟩)], [((1, GetBaseCoin), 100000000000000000)],
            [], [5], []⟩ : StateDB) ≤ 100000000000000000 ∧
      (100000000000000000 : Int) <
        60 + commissionOf sampleCalc (⟨7, 1, GetBaseCoin, 100⟩ : Transaction)
          (⟨[(GetBaseCoin, ⟨0, 0, 0⟩)], [((1, GetBaseCoin), 100000000000000000)],
            [], [5], []⟩ : StateDB)) ∧
    DelegateData.Run sampleCalc (⟨5, GetBaseCoin, 60⟩ : DelegateData) 1
        (⟨7, 1, GetBaseCoin, 100⟩ : Transaction)
        (⟨[(GetBaseCoin, ⟨0, 0, 0⟩)], [((1, GetBaseCoin), 100000000000000000)],
          [], [5], []⟩ : StateDB) true 0 0 =
      (⟨.InsufficientFunds, 0, 0⟩,
        (⟨[(GetBaseCoin, ⟨0, 0, 0⟩)], [((1, GetBaseCoin), 100000000000000000)],
          [], [5], []⟩ : StateDB), 0) :=
  ⟨⟨by decide, by decide, by decide, by decide⟩,
    delegate_combined_insufficient sampleCalc ⟨5, GetBaseCoin, 60⟩ 1
      ⟨7, 1, GetBaseCoin, 100⟩
      ⟨[(GetBaseCoin, ⟨0, 0, 0⟩)], [((1, GetBaseCoin), 100000000000000000)],
        [], [5], []⟩ true 0 0
      (by decide) (by decide) (by decide) (Or.inl rfl)
      (by decide) (by decide) (by decide)⟩

end Txn

end Minter
